import Mathlib

/-!
Verification development for the munsellkit repository.

The repository converts between Munsell color specifications and device
color spaces.  We shallowly embed the Python code:

* numeric values are modelled exactly: `ℚ` where the code only performs
  field arithmetic, comparisons, rounding and flooring, and `ℝ` where it
  uses `math.sqrt` / `math.atan2` / `math.cos` / `math.sin`;
* a NaN-able tuple slot (NumPy `np.nan` is used by the code as an
  "undefined" marker for the neutral-gray convention) is modelled as an
  `Option`, with `none` playing the role of NaN;
* Python exceptions (`ValueError`, `TypeError`, `RuntimeError`,
  `UnboundLocalError`, plain `Exception`) become an `Except PyErr` result;
* Python `round` is round-half-to-even (`pyRound`), Python `int()` is
  truncation toward zero (`pyTrunc`), Python `divmod`/`%` on numbers uses
  the floor convention (`Int.floor` / `Int.emod`).
-/

/-- Python `int(v)` on a number: truncation toward zero. -/
def pyTrunc {α : Type} [LinearOrderedRing α] [FloorRing α] (x : α) : ℤ :=
  if 0 ≤ x then ⌊x⌋ else ⌈x⌉

/-- Python `round(x)` (no digits argument): round half to even. -/
def pyRound {α : Type} [LinearOrderedField α] [FloorRing α] (x : α) : ℤ :=
  let f := ⌊x⌋
  let r := x - (f : α)
  if r < 1/2 then f
  else if 1/2 < r then f + 1
  else if 2 ∣ f then f else f + 1

/-- Python `round(x, d)`: round half to even at `d` decimal digits
(exact-value semantics of the float operation). -/
def pyRoundTo {α : Type} [LinearOrderedField α] [FloorRing α] (d : ℤ) (x : α) : α :=
  ((pyRound (x * 10 ^ d) : ℤ) : α) / 10 ^ d

/-- Python exceptions raised by the embedded code. -/
inductive PyErr : Type
  | valueError (msg : String)
  | typeError (msg : String)
  | runtimeError (msg : String)
  | unboundLocalError (name : String)
  | exception (msg : String)
deriving DecidableEq, Repr

instance exceptDecEq {ε α : Type} [DecidableEq ε] [DecidableEq α] :
    DecidableEq (Except ε α) := fun a b =>
  match a, b with
  | .error e, .error f =>
      if h : e = f then .isTrue (by rw [h]) else .isFalse (by intro hc; cases hc; exact h rfl)
  | .error _, .ok _ => .isFalse (by intro hc; cases hc)
  | .ok _, .error _ => .isFalse (by intro hc; cases hc)
  | .ok x, .ok y =>
      if h : x = y then .isTrue (by rw [h]) else .isFalse (by intro hc; cases hc; exact h rfl)

namespace Munsellkit

/-! ## `src/src/munsellkit/munsellkit.py` -/

/-- The `rounding` parameter of `normalized_color` / `normalized_hue`:
an `int` (`dec`), the string `'renotation'` (`renotationGrid`), or `None`
(`noRound`).  Any other string makes the Python functions raise
`ValueError` before doing anything else; such strings are not
representable here. -/
inductive Rounding : Type
  | renotationGrid
  | dec (d : ℤ)
  | noRound
deriving DecidableEq, Repr

/-- Letter codes corresponding to Colorlab `hue_index`, a 1-based index
(`COLORLAB_HUE_NAMES` in `src/src/munsellkit/munsellkit.py`). -/
def COLORLAB_HUE_NAMES : List String :=
  ["B", "BG", "G", "GY", "Y", "YR", "R", "RP", "P", "PB"]

/-- A normalized Colorlab specification as produced by `normalized_color`:
the NumPy row `[hue_shade, value, chroma, hue_index]`, where any of
`hue_shade`, `chroma`, `hue_index` may be NaN (`none`); the `value` slot is
always numeric. -/
structure NSpec : Type where
  hue_shade : Option ℚ
  value : ℚ
  chroma : Option ℚ
  hue_index : Option ℚ
deriving DecidableEq, Repr

/-- `normalized_hue(hue_index, hue_shade, rounding)`
(`src/src/munsellkit/munsellkit.py`, lines 129-174).
`hue_index = none` models a NaN argument; `hue_shade = none` models the
`None` default.  Returns the pair `(hue_index, hue_shade)`. -/
def normalized_hue (hue_index : Option ℚ) (hue_shade : Option ℚ)
    (rounding : Rounding) : Except PyErr (Option ℚ × Option ℚ) :=
  match hue_index with
  | none => .ok (none, none)
  | some hi0 =>
    let hi : ℤ := pyTrunc hi0
    if hi = 0 then .ok (none, none)
    else if hi < 1 ∨ 10 < hi then .error (.valueError "Invalid hue_index")
    else
      match hue_shade with
      | none => .error (.valueError "hue_shade is required")
      | some hs0 =>
        let hs1 : ℚ :=
          match rounding with
          | .renotationGrid => ((pyRound (hs0 / (5/2)) : ℤ) : ℚ) * (5/2)
          | .dec d => pyRoundTo d hs0
          | .noRound => hs0
        let hs2 : ℚ := max 0 (min hs1 10)
        if hs2 = 0 then .ok (some ((hi % 10 + 1 : ℤ) : ℚ), some 10)
        else .ok (some (hi : ℚ), some hs2)

/-- `normalized_color(spec, rounding, out='spec')`
(`src/src/munsellkit/munsellkit.py`, lines 44-113); we model the
specification output (the string-formatting tail of the function, used for
`out='all'` / `out='color'`, is not needed by any claim).  The input
specification is `[hue_shade, value, chroma, hue_index]` with `hue_index`
possibly NaN (`none`). -/
def normalized_color (hue_shade value chroma : ℚ) (hue_index : Option ℚ)
    (rounding : Rounding) : Except PyErr NSpec :=
  match normalized_hue hue_index (some hue_shade) rounding with
  | .error e => .error e
  | .ok (hi, hs) =>
    let mvc : ℚ × ℚ × ℚ × ℚ :=
      match rounding with
      | .renotationGrid =>
        let v1 : ℚ := ((pyRound value : ℤ) : ℚ)
        let c1 : ℚ := ((pyRound (chroma / 2) : ℤ) : ℚ) * 2
        -- "if chroma < 2: value = 0  (Coerce to neutral)"
        let v2 : ℚ := if c1 < 2 then 0 else v1
        (1, 2, v2, c1)
      | .dec d => (0, 0, pyRoundTo d value, pyRoundTo d chroma)
      | .noRound => (0, 0, value, chroma)
    let min_value := mvc.1
    let min_chroma := mvc.2.1
    let v2 : ℚ := max min_value (min mvc.2.2.1 10)
    let c2 : ℚ := max min_chroma (min mvc.2.2.2 50)
    if v2 = 0 then .ok { hue_shade := none, value := v2, chroma := none, hue_index := none }
    else .ok { hue_shade := hs, value := v2, chroma := some c2, hue_index := hi }

/-- `hue_name_from_hue_index(hue_index)`
(`src/src/munsellkit/munsellkit.py`, lines 177-202); `none` models a NaN
argument (treated as 0). -/
def hue_name_from_hue_index (hue_index : Option ℚ) : Except PyErr String :=
  let hi : ℚ := hue_index.getD 0
  let h : ℤ := pyTrunc hi
  if (h : ℚ) ≠ hi ∨ h < 0 ∨ 10 < h then .error (.valueError "Invalid hue index")
  else if h = 0 then .ok "N"
  else .ok (COLORLAB_HUE_NAMES.getD (h - 1).toNat "")

/-- `hue_index_from_hue_name(hue_name)`
(`src/src/munsellkit/munsellkit.py`, lines 275-296).  The parameter is
named `hue_name`, but the body's first statement is
`name = name.strip().upper()`: `name` is a local variable (it is assigned
in the function) read before assignment, so every call raises
`UnboundLocalError` at that line and the rest of the body
(`if name == 'N': return 0.` / `return COLORLAB_HUE_NAMES.index(name) + 1`)
is unreachable. -/
def hue_index_from_hue_name (_hue_name : String) : Except PyErr ℚ :=
  .error (.unboundLocalError "name")

end Munsellkit

namespace Minterpol

/-! ## `src/munsellkit/minterpol.py` -/

/-- A Colorlab specification as returned by the minterpol bridge: the row
`[hue_shade, value, chroma, hue_index]` is either all-numeric (`color`) or
has `hue_shade`, `chroma` and `hue_index` all NaN (`gray`). -/
inductive Spec : Type
  | gray (value : ℚ)
  | color (hue_shade value chroma hue_index : ℚ)
deriving DecidableEq, Repr

/-- `_to_colorlab_hue(hue)` (`src/munsellkit/minterpol.py`, lines 180-216).
Python's `divmod(hue, 10)` is floor division with remainder; the quotient is
integral, so the subsequent `int()` is the floor itself. -/
def _to_colorlab_hue (hue : ℚ) : ℚ × ℚ :=
  let hue1 : ℚ := if hue = 0 then 100 else hue
  let idx0 : ℤ := ⌊hue1 / 10⌋
  let sh0 : ℚ := hue1 - 10 * (idx0 : ℚ)
  let p : ℚ × ℤ := if sh0 = 0 then (10, idx0 - 1) else (sh0, idx0)
  (p.1, (((16 - p.2) % 10 + 1 : ℤ) : ℚ))

/-- `_to_colorlab_specification(hvc)` (`src/munsellkit/minterpol.py`,
lines 149-177), after the 3-element unpacking of `hvc` has succeeded. -/
def _to_colorlab_specification (hue value chroma : ℚ) : Spec :=
  if value ≤ 0 ∨ chroma ≤ 0 then
    -- "If error (value == -1), or value or chroma are zero, return black"
    .gray (if value < 0 then 0 else value)
  else
    let p := _to_colorlab_hue hue
    .color p.1 value chroma p.2

/-- A JSON value, the result of `json.loads` on the R subprocess output.
Numeric literals are modelled as exact rationals (the non-standard `NaN` /
`Infinity` literals that Python's parser also accepts are outside the
model); objects carry their fields as a key/value list. -/
inductive Json : Type
  | null
  | bool (b : Bool)
  | num (q : ℚ)
  | str (s : String)
  | arr (elems : List Json)
  | obj (fields : List (String × Json))

/-- `hue, value, chroma = hvc` followed by the first uses of the three
components inside `_to_colorlab_specification`.  Unpacking succeeds only on
a 3-element sequence; a non-sequence or a sequence of another length raises
`TypeError` / `ValueError` at the unpacking, and a 3-element sequence with
non-numeric entries raises `TypeError` at the first comparison or
arithmetic use of the entry (we surface all of these as the error result;
JSON booleans behave as the integers 0 and 1, as in Python). -/
def _unpack_hvc : Json → Except PyErr (ℚ × ℚ × ℚ)
  | .arr [a, b, c] =>
    let asNum : Json → Except PyErr ℚ := fun j =>
      match j with
      | .num q => .ok q
      | .bool b => .ok (if b then 1 else 0)
      | _ => .error (.typeError "unsupported operand type")
    match asNum a, asNum b, asNum c with
    | .ok x, .ok y, .ok z => .ok (x, y, z)
    | .error e, _, _ => .error e
    | _, .error e, _ => .error e
    | _, _, .error e => .error e
  | .arr _ => .error (.valueError "wrong number of values to unpack")
  | _ => .error (.typeError "cannot unpack non-sequence")

/-- `rgb_to_munsell_specification(r, g, b)` (`src/munsellkit/minterpol.py`,
lines 34-58), as a function of the subprocess output: `out?` is the result
of `json.loads` on the bytes the R script wrote (`none` when `loads`
raised, which the bare `except` turns into `res = None`). -/
def rgb_to_munsell_specification (out? : Option Json) : Except PyErr Spec :=
  match out? with
  | some (.arr (data :: _)) =>
    match _unpack_hvc data with
    | .ok hvc => .ok (_to_colorlab_specification hvc.1 hvc.2.1 hvc.2.2)
    | .error e => .error e
  | _ => .error (.exception "to_munsell.R returned unexpected output")

/-- `xyY_to_munsell_specification(xyY)` (`src/munsellkit/minterpol.py`,
lines 61-88), as a function of the subprocess output, exactly as
`rgb_to_munsell_specification`: the two functions differ only in the
subprocess arguments they marshal, not in how they treat its output. -/
def xyY_to_munsell_specification (out? : Option Json) : Except PyErr Spec :=
  match out? with
  | some (.arr (data :: _)) =>
    match _unpack_hvc data with
    | .ok hvc => .ok (_to_colorlab_specification hvc.1 hvc.2.1 hvc.2.2)
    | .error e => .error e
  | _ => .error (.exception "to_munsell.R returned unexpected output")

end Minterpol

namespace Deprecated

/-! ## `src/munsellkit/deprecated.py` -/

/-- Modelled from the spec: `new_Y_to_munsell_value` is called by
`adjust_value_up` but defined nowhere in the repository (the related
`Y_to_munsell_value` delegates to the external colour-science package's
ASTM D1535 polynomial).  The spec describes the map as taking the xyY
luminosity `Y` in `[0, 1]` to a Munsell value in `[0, 10]`, with black
(`Y = 0`) at value 0; we use the linear map with those endpoints.  The
theorems below are parameterized over an arbitrary map wherever the claim
allows it, and use this stand-in only where a concrete map is needed. -/
def new_Y_to_munsell_value (Y : ℚ) : ℚ := 10 * Y

/-- The `while i <= 100` loop of `adjust_value_up`
(`src/munsellkit/deprecated.py`, lines 43-52), with the Y-to-Munsell-value
map `mval` passed explicitly.  `i` is the Python loop counter; `fuel` is
`101 - i`, so the loop body runs for `i = 1, ..., 100` and the final
`raise RuntimeError` fires when the fuel runs out or the `break` on
`new_value > 10` is taken. -/
def adjust_loop (mval : ℚ → ℚ) (x y Y step : ℚ) : ℕ → ℕ → Except PyErr ((ℚ × ℚ × ℚ) × ℚ)
  | _, 0 => .error (.runtimeError "Could not adjust Munsell value up")
  | i, fuel + 1 =>
    let Yt : ℚ := Y + (i : ℚ) * step
    let nv : ℚ := mval Yt
    if 10 < nv then .error (.runtimeError "Could not adjust Munsell value up")
    else if 1 ≤ nv then .ok ((x, y, Yt), nv)
    else adjust_loop mval x y Y step (i + 1) fuel

/-- `adjust_value_up(xyY)` (`src/munsellkit/deprecated.py`, lines 28-54),
with the missing `new_Y_to_munsell_value` passed as `mval`.  The code reads
the luminosity from `xyY[2]` and probes `Y + i * (0.2 - Y)/100` for
`i = 1, ..., 100`. -/
def adjust_value_up (mval : ℚ → ℚ) (xyY : ℚ × ℚ × ℚ) :
    Except PyErr ((ℚ × ℚ × ℚ) × ℚ) :=
  let Y := xyY.2.2
  let value := mval Y
  if 10 < value then .error (.runtimeError "Munsell value exceeds 10")
  else if Y = 0 ∨ 1 ≤ value then .ok (xyY, value)
  else
    let step : ℚ := (1/5 - Y) / 100
    adjust_loop mval xyY.1 xyY.2.1 Y step 1 100

end Deprecated

namespace Lindbloom

/-! ## `src/munsellkit/lindbloom.py` (and, for `_clamp_int8`,
`src/src/munsellkit/lindbloom.py`)

The UP LAB functions use `math.sqrt`, `math.atan2`, `math.cos` and
`math.sin`, so this part of the embedding lives in `ℝ`. -/

/-- `_clamp_int8(v)` (`src/src/munsellkit/lindbloom.py`, lines 284-285):
`min(-128, max(127, int(v)))`, exactly as written in the source (note the
order of `min` and `max`; compare `_clamp_uint8(v) = min(255, max(0, int(v)))`
two lines above it). -/
def _clamp_int8 (v : ℚ) : ℤ :=
  min (-128) (max 127 (pyTrunc v))

/-- A Colorlab specification row in the UP LAB module: all-numeric
(`color`) or neutral with `hue_shade`, `chroma`, `hue_index` all NaN
(`gray`); the `value` slot is always numeric. -/
inductive SpecR : Type
  | gray (value : ℝ)
  | color (hue_shade value chroma hue_index : ℝ)

noncomputable section

/-- Heuristic factor `VALUE_FACTOR = 9.9167`. -/
def VALUE_FACTOR : ℝ := 99167 / 10000

/-- Heuristic factor `CHROMA_FACTOR = 50`. -/
def CHROMA_FACTOR : ℝ := 50

/-- `math.atan2(y, x)`: the angle of the point `(x, y)` in `(-π, π]`,
i.e. the complex argument of `x + y·i`. -/
def atan2 (y x : ℝ) : ℝ := Complex.arg { re := x, im := y }

/-- `uplab_to_munsell_specification(lab)` (`src/munsellkit/lindbloom.py`,
lines 106-164).  `divmod(hue, 10)` is floor division with remainder, and
the `int()` on its integral quotient is the floor itself. -/
def uplab_to_munsell_specification (lab : ℝ × ℝ × ℝ) : SpecR :=
  let l := lab.1
  let a_star := lab.2.1
  let b_star := lab.2.2
  let value := VALUE_FACTOR * l
  let chroma := CHROMA_FACTOR * Real.sqrt (a_star * a_star + b_star * b_star)
  if chroma < 1/100 then .gray value
  else
    let ha0 := atan2 b_star a_star * 180 / Real.pi
    let hue_angle := if ha0 < 0 then ha0 + 360 else ha0
    let hue_0 := hue_angle * 100 / 360
    let hue1 := hue_0 + 5/2
    let hue := if 100 < hue1 then hue1 - 100 else hue1
    let idx0 : ℤ := ⌊hue / 10⌋
    let sh0 : ℝ := hue - 10 * (idx0 : ℝ)
    let p : ℝ × ℤ := if sh0 = 0 then (10, idx0 - 1) else (sh0, idx0)
    let hue_index : ℝ := (((17 - p.2) % 10 : ℤ) : ℝ) + 1
    .color p.1 value chroma hue_index

/-- `munsell_specification_to_uplab(spec)` (`src/munsellkit/lindbloom.py`,
lines 232-274).  The Python code dispatches on `np.isnan(hue_shade)`; in
this module a specification has either all three of `hue_shade`, `chroma`,
`hue_index` NaN or none of them, which is the `gray` / `color` split. -/
def munsell_specification_to_uplab (spec : SpecR) : ℝ × ℝ × ℝ :=
  match spec with
  | .gray value => (value / VALUE_FACTOR, 0, 0)
  | .color hue_shade value chroma hue_index =>
    let hue_base : ℤ := (18 - pyTrunc hue_index) % 10
    let hue : ℝ := (hue_base : ℝ) * 10 + hue_shade
    let hue_0' : ℝ := hue - 5/2
    let hue_0 : ℝ := if hue_0' < 0 then hue_0' + 100 else hue_0'
    let hue_angle : ℝ := hue_0 * 360 / 100
    let l := value / VALUE_FACTOR
    let radius := chroma / CHROMA_FACTOR
    let rad := hue_angle * Real.pi / 180
    (l, Real.cos rad * radius, Real.sin rad * radius)

/-- `_normalized_specification(hue_shade, value, chroma, hue_index)`
(`src/munsellkit/lindbloom.py`, lines 281-288). -/
def _normalized_specification (hue_shade value chroma hue_index : ℝ) : SpecR :=
  if hue_shade = 0 then
    .color 10 value chroma (if (99:ℝ)/10 < hue_index then 1 else hue_index + 1)
  else
    .color hue_shade value chroma hue_index

/-- The observable outcome of a call to `uplab_to_renotation_specification`:
the returned row, the contents of the caller's `spec` array after the call
(the function may assign through `spec[1]`), and whether the returned array
is the caller's array itself (aliasing) rather than a fresh one. -/
structure RenotationCall : Type where
  result : SpecR
  specAfter : SpecR
  resultIsInput : Bool

/-- `spec[1] = v` on a specification row. -/
def setValue (spec : SpecR) (v : ℝ) : SpecR :=
  match spec with
  | .gray _ => .gray v
  | .color h _ c i => .color h v c i

/-- The body of the `for ct in [c0, c1]: for ht in [h0, h1]` loop of
`uplab_to_renotation_specification` (`src/munsellkit/lindbloom.py`,
lines 217-226): one probe of a candidate `(chroma, hue_shade)` pair `p`,
updating the `(closest_dist, closest)` accumulator (`none` is the initial
`closest = None`; the strict `closest_dist > distance_sq` keeps the
earliest minimum). -/
def _renotation_probe (value hue_index a_star b_star : ℝ)
    (acc : Option (ℝ × SpecR)) (p : ℝ × ℝ) : Option (ℝ × SpecR) :=
  let test_spec := _normalized_specification p.2 value p.1 hue_index
  let u := munsell_specification_to_uplab test_spec
  let dsq := (u.2.1 - a_star) * (u.2.1 - a_star) + (u.2.2 - b_star) * (u.2.2 - b_star)
  match acc with
  | none => some (dsq, test_spec)
  | some q => if dsq < q.1 then some (dsq, test_spec) else some q

/-- `uplab_to_renotation_specification(spec, lab)`
(`src/munsellkit/lindbloom.py`, lines 167-229).  The four candidate
`(chroma, hue_shade)` pairs are tested in the source's loop order (the loop
body is `_renotation_probe`); `closest[1] = v_ren` then overwrites the
value slot of the winner.  On the gray path the code assigns
`spec[1] = v_ren` into the caller's array and returns that same array. -/
def uplab_to_renotation_specification (spec : SpecR) (lab : ℝ × ℝ × ℝ) :
    RenotationCall :=
  let value : ℝ := match spec with | .gray v => v | .color _ v _ _ => v
  let vr0 : ℝ := if value < 1 then 1 else if 9 < value ∧ value < 99/10 then 9 else value
  let v_ren : ℝ := ((pyRound vr0 : ℤ) : ℝ)
  match spec with
  | .gray _ =>
    { result := .gray v_ren, specAfter := .gray v_ren, resultIsInput := true }
  | .color hue_shade _ chroma hue_index =>
    let c0 : ℝ := (⌊chroma / 2⌋ : ℝ) * 2
    let c1 : ℝ := c0 + 2
    let h0 : ℝ := (⌊hue_shade / (5/2)⌋ : ℝ) * (5/2)
    let h1 : ℝ := h0 + 5/2
    let closest? := [(c0, h0), (c0, h1), (c1, h0), (c1, h1)].foldl
      (_renotation_probe value hue_index lab.2.1 lab.2.2) none
    match closest? with
    | some q =>
      { result := setValue q.2 v_ren, specAfter := spec, resultIsInput := false }
    | none =>
      -- unreachable: the candidate list is nonempty
      { result := .gray 0, specAfter := spec, resultIsInput := false }

end

end Lindbloom

/-! ## Helper lemmas for evaluating the embedded primitives -/

theorem pyTrunc_eval {α : Type} [LinearOrderedRing α] [FloorRing α] {x : α} {n : ℤ}
    (h0 : 0 ≤ x) (h1 : (n : α) ≤ x) (h2 : x < n + 1) : pyTrunc x = n := by
  unfold pyTrunc
  rw [if_pos h0]
  exact Int.floor_eq_iff.mpr ⟨h1, by exact_mod_cast h2⟩

theorem pyTrunc_intCast {α : Type} [LinearOrderedRing α] [FloorRing α] (n : ℤ) :
    pyTrunc ((n : α)) = n := by
  unfold pyTrunc
  rcases le_or_lt 0 ((n : α)) with h | h
  · rw [if_pos h, Int.floor_intCast]
  · rw [if_neg (not_le.mpr h), Int.ceil_intCast]

theorem pyRound_low {α : Type} [LinearOrderedField α] [FloorRing α] {x : α} {n : ℤ}
    (h1 : (n : α) ≤ x) (h2 : x < n + 1/2) : pyRound x = n := by
  have hf : ⌊x⌋ = n := Int.floor_eq_iff.mpr ⟨h1, by push_cast; linarith⟩
  unfold pyRound
  rw [hf, if_pos (by push_cast; linarith)]

theorem pyRound_high {α : Type} [LinearOrderedField α] [FloorRing α] {x : α} {n : ℤ}
    (h1 : (n : α) + 1/2 < x) (h2 : x < n + 1) : pyRound x = n + 1 := by
  have hn : (n : α) ≤ x := by linarith [half_pos (zero_lt_one' α)]
  have hf : ⌊x⌋ = n := Int.floor_eq_iff.mpr ⟨by linarith, by push_cast; linarith⟩
  unfold pyRound
  rw [hf, if_neg (by push_cast; linarith), if_pos (by push_cast; linarith)]

theorem pyRound_intCast {α : Type} [LinearOrderedField α] [FloorRing α] (n : ℤ) :
    pyRound ((n : α)) = n :=
  pyRound_low (le_refl _) (by linarith [half_pos (zero_lt_one' α)])

theorem floor_le_pyRound {α : Type} [LinearOrderedField α] [FloorRing α] (x : α) :
    ⌊x⌋ ≤ pyRound x := by
  simp only [pyRound]
  split_ifs <;> omega

theorem pyRound_le_floor_add_one {α : Type} [LinearOrderedField α] [FloorRing α] (x : α) :
    pyRound x ≤ ⌊x⌋ + 1 := by
  simp only [pyRound]
  split_ifs <;> omega

theorem le_pyRound {α : Type} [LinearOrderedField α] [FloorRing α] {x : α} {m : ℤ}
    (h : (m : α) ≤ x) : m ≤ pyRound x :=
  le_trans (Int.le_floor.mpr h) (floor_le_pyRound x)

theorem pyRound_le {α : Type} [LinearOrderedField α] [FloorRing α] {x : α} {m : ℤ}
    (h : x ≤ (m : α)) : pyRound x ≤ m := by
  rcases eq_or_lt_of_le h with h | h
  · rw [h, pyRound_intCast]
  · have : ⌊x⌋ < m := Int.floor_lt.mpr h
    have := pyRound_le_floor_add_one x
    omega

/-- Evaluation rule for `Minterpol._to_colorlab_hue` on a decomposed hue
`10·k + s` with `k` the munsellinterpol family index and `s` the shade. -/
theorem to_colorlab_hue_eval (k : ℤ) (s : ℚ) (hk0 : 0 ≤ k) (hs : 0 < s) (hs10 : s ≤ 10) :
    Minterpol._to_colorlab_hue (10 * (k : ℚ) + s) =
      (s, (((16 - k) % 10 + 1 : ℤ) : ℚ)) := by
  have hpos : (0 : ℚ) < 10 * (k : ℚ) + s := by
    have : (0:ℚ) ≤ 10 * (k : ℚ) := by positivity
    linarith
  have hne : (10 * (k : ℚ) + s) ≠ 0 := hpos.ne'
  rcases eq_or_lt_of_le hs10 with h10 | h10
  · -- s = 10: the remainder is 0 and the code wraps to shade 10, family k
    subst h10
    have hfloor : ⌊(10 * (k : ℚ) + 10) / 10⌋ = k + 1 := by
      rw [show (10 * (k : ℚ) + 10) / 10 = ((k + 1 : ℤ) : ℚ) by push_cast; ring]
      exact Int.floor_intCast _
    simp only [Minterpol._to_colorlab_hue, if_neg hne]
    rw [hfloor]
    split_ifs with hsh
    · rw [Prod.mk.injEq]
      exact ⟨rfl, by norm_num⟩
    · exfalso
      apply hsh
      push_cast
      ring
  · -- 0 < s < 10: the remainder is s itself
    have hfloor : ⌊(10 * (k : ℚ) + s) / 10⌋ = k := by
      rw [Int.floor_eq_iff]
      constructor
      · rw [le_div_iff₀ (by norm_num : (0:ℚ) < 10)]
        linarith
      · push_cast
        rw [div_lt_iff₀ (by norm_num : (0:ℚ) < 10)]
        linarith
    simp only [Minterpol._to_colorlab_hue, if_neg hne]
    rw [hfloor]
    split_ifs with hsh
    · exfalso
      apply absurd hs
      push_cast at hsh
      intro _
      linarith
    · rw [Prod.mk.injEq]
      exact ⟨by push_cast; ring, rfl⟩

/-- Evaluation of `Minterpol._to_colorlab_hue` at munsellinterpol hue 0,
which the code first remaps to 100. -/
theorem to_colorlab_hue_zero : Minterpol._to_colorlab_hue 0 = (10, 8) := by
  have h := to_colorlab_hue_eval 9 10 (by norm_num) (by norm_num) (by norm_num)
  rw [show 10 * ((9 : ℤ) : ℚ) + 10 = 100 by norm_num] at h
  have h0 : Minterpol._to_colorlab_hue 0 = Minterpol._to_colorlab_hue 100 := by
    simp only [Minterpol._to_colorlab_hue]
    norm_num
  rw [h0, h]
  norm_num

/-! ## Theorems -/

/-- C10: `_clamp_int8` does not clamp into the signed 8-bit range: because
its `min` and `max` are transposed relative to `_clamp_uint8`, it returns
−128 for every input, so it is not the identity on in-range inputs (the
code contradicts its evident intent of clamping LAB a/b channels to
[−128, 127]); at input 0 it returns −128 instead of 0. -/
theorem C10_clamp_int8_constant_minus128 :
    (∀ v : ℚ, Lindbloom._clamp_int8 v = -128) ∧ ¬ Lindbloom._clamp_int8 0 = 0 := by
  have key : ∀ v : ℚ, Lindbloom._clamp_int8 v = -128 := by
    intro v
    unfold Lindbloom._clamp_int8
    have h : (127 : ℤ) ≤ max 127 (pyTrunc v) := le_max_left _ _
    have := min_eq_left (show (-128 : ℤ) ≤ max 127 (pyTrunc v) by omega)
    omega
  exact ⟨key, by rw [key 0]; omega⟩

/-- C2: the hue-name/hue-index mapping is not bidirectional in the code:
`hue_name_from_hue_index` works (e.g. index 3 gives 'G', index 0 gives 'N'),
but `hue_index_from_hue_name` reads the unassigned local `name` (its
parameter is `hue_name`), so every call — including on names produced by
`hue_name_from_hue_index` — raises `UnboundLocalError`, contradicting its
own docstring, which promises `ValueError` exactly on invalid names. -/
theorem C2_hue_index_from_hue_name_always_raises :
    Munsellkit.hue_name_from_hue_index (some 3) = .ok "G" ∧
    Munsellkit.hue_name_from_hue_index (some 0) = .ok "N" ∧
    Munsellkit.hue_index_from_hue_name "G" = .error (.unboundLocalError "name") ∧
    Munsellkit.hue_index_from_hue_name "N" = .error (.unboundLocalError "name") := by
  have h3 : pyTrunc (3 : ℚ) = 3 := by
    have := pyTrunc_intCast (α := ℚ) 3
    norm_num at this
    exact this
  have h0 : pyTrunc (0 : ℚ) = 0 := by
    have := pyTrunc_intCast (α := ℚ) 0
    norm_num at this
    exact this
  refine ⟨?_, ?_, rfl, rfl⟩
  · unfold Munsellkit.hue_name_from_hue_index
    norm_num [h3, Munsellkit.COLORLAB_HUE_NAMES]
    decide
  · unfold Munsellkit.hue_name_from_hue_index
    norm_num [h0]

/-- C4: in `'renotation'` rounding mode the promised coercion to neutral
never happens: when the rounded chroma falls below 2 the code sets
`value = 0` ("Coerce to neutral"), but the subsequent clamp
`value = max(min_value, min(value, 10))` with `min_value = 1` restores
`value = 1` before the `value == 0` neutral check, so the result keeps its
hue and gets value 1 and chroma 2.  At input `(2.5, 5, 0.5, 7)` the result
is the non-neutral `(2.5, 1, 2, 7)`. -/
theorem C4_renotation_neutral_coercion_defeated :
    Munsellkit.normalized_color (5/2) 5 (1/2) (some 7) .renotationGrid =
      .ok { hue_shade := some (5/2), value := 1, chroma := some 2, hue_index := some 7 } ∧
    (some ((5:ℚ)/2) : Option ℚ) ≠ none := by
  constructor
  · have ht7 : pyTrunc (7 : ℚ) = 7 := by
      have := pyTrunc_intCast (α := ℚ) 7
      norm_num at this
      exact this
    have hdiv : (5:ℚ)/2 / (5/2) = 1 := by norm_num
    have hr1 : pyRound (1 : ℚ) = 1 := by
      have := pyRound_intCast (α := ℚ) 1
      norm_num at this
      exact this
    have hr5 : pyRound (5 : ℚ) = 5 := by
      have := pyRound_intCast (α := ℚ) 5
      norm_num at this
      exact this
    have hrq : pyRound ((1:ℚ)/4) = 0 := pyRound_low (by norm_num) (by norm_num)
    unfold Munsellkit.normalized_color Munsellkit.normalized_hue
    norm_num [ht7, hdiv, hr1, hr5, hrq, max_def, min_def]
  · simp

/-- C3: the claim's formula for `_to_colorlab_specification` is off on
negative values: at input `(5, -1, 3)` (the munsellinterpol error flag
`value == -1`) the function returns the gray row with value 0, not with the
incoming value −1. -/
theorem C3_gray_value_clamped_counterexample :
    Minterpol._to_colorlab_specification 5 (-1) 3 ≠ Minterpol.Spec.gray (-1) := by
  unfold Minterpol._to_colorlab_specification
  rw [if_pos (by norm_num)]
  rw [if_pos (by norm_num)]
  intro h
  injection h with h
  norm_num at h

/-- C3 (amended): both conversions represent neutral grays with
`hue_shade`, `chroma` and `hue_index` all NaN, leaving only the value
numeric: `_to_colorlab_specification` returns the gray row whenever the
incoming value or chroma is ≤ 0, with the value clamped below at 0
(negative error-flag values become 0), and `uplab_to_munsell_specification`
returns the gray row with value `VALUE_FACTOR·l` whenever the computed
chroma is below 0.01. -/
theorem C3_neutral_gray_nan_pattern :
    (∀ hue value chroma : ℚ, value ≤ 0 ∨ chroma ≤ 0 →
      Minterpol._to_colorlab_specification hue value chroma =
        .gray (if value < 0 then 0 else value)) ∧
    (∀ l a b : ℝ,
      Lindbloom.CHROMA_FACTOR * Real.sqrt (a * a + b * b) < 1/100 →
      Lindbloom.uplab_to_munsell_specification (l, a, b) =
        .gray (Lindbloom.VALUE_FACTOR * l)) := by
  constructor
  · intro hue value chroma h
    unfold Minterpol._to_colorlab_specification
    rw [if_pos h]
  · intro l a b h
    simp only [Lindbloom.uplab_to_munsell_specification]
    rw [if_pos h]

/-- Witness for C3: concrete gray conversions on both paths. -/
theorem C3_neutral_gray_nan_pattern_witness :
    Minterpol._to_colorlab_specification 5 0 3 = .gray 0 ∧
    Lindbloom.uplab_to_munsell_specification (1/2, 0, 0) =
      .gray (Lindbloom.VALUE_FACTOR * (1/2)) := by
  constructor
  · have h := C3_neutral_gray_nan_pattern.1 5 0 3 (Or.inl le_rfl)
    simpa using h
  · exact C3_neutral_gray_nan_pattern.2 (1/2) 0 0 (by
      rw [show (0:ℝ) * 0 + 0 * 0 = 0 by ring, Real.sqrt_zero]
      norm_num [Lindbloom.CHROMA_FACTOR])

/-- C5: the minterpol-to-Colorlab hue remap.  For every munsellinterpol hue
`10·k + s` (family `k` in 0..9, shade `s` in (0, 10]), `_to_colorlab_hue`
returns the shade unchanged and the Colorlab index of family `k` per the
fixed table R↦7, YR↦6, Y↦5, GY↦4, G↦3, BG↦2, B↦1, PB↦10, P↦9, RP↦8;
hue 0 is treated as 100 (giving 10RP); and on all of [0, 100] the result
has `hue_shade` in (0, 10] and `hue_index` an integer in {1..10}. -/
theorem C5_to_colorlab_hue_remap :
    (∀ k : ℤ, 0 ≤ k → k ≤ 9 → ∀ s : ℚ, 0 < s → s ≤ 10 →
      Minterpol._to_colorlab_hue (10 * (k : ℚ) + s) =
        (s, ([7, 6, 5, 4, 3, 2, 1, 10, 9, 8] : List ℚ).getD k.toNat 0)) ∧
    Minterpol._to_colorlab_hue 0 = (10, 8) ∧
    (∀ hue : ℚ, 0 ≤ hue → hue ≤ 100 →
      0 < (Minterpol._to_colorlab_hue hue).1 ∧
      (Minterpol._to_colorlab_hue hue).1 ≤ 10 ∧
      ∃ n : ℤ, 1 ≤ n ∧ n ≤ 10 ∧ (Minterpol._to_colorlab_hue hue).2 = (n : ℚ)) := by
  refine ⟨?_, to_colorlab_hue_zero, ?_⟩
  · intro k hk0 hk9 s hs hs10
    rw [to_colorlab_hue_eval k s hk0 hs hs10]
    rw [Prod.mk.injEq]
    refine ⟨rfl, ?_⟩
    interval_cases k <;> norm_num [List.getD] <;> rfl
  · intro hue h0 h100
    rcases eq_or_lt_of_le h0 with hz | hz
    · rw [← hz, to_colorlab_hue_zero]
      exact ⟨by norm_num, by norm_num, 8, by norm_num, by norm_num, by norm_num⟩
    · set k : ℤ := ⌈hue / 10⌉ - 1 with hk
      have hceil1' : 0 < ⌈hue / 10⌉ := Int.ceil_pos.mpr (by positivity)
      have hceil10 : ⌈hue / 10⌉ ≤ 10 := Int.ceil_le.mpr (by
        push_cast
        rw [div_le_iff₀ (by norm_num : (0:ℚ) < 10)]
        linarith)
      have hk0 : 0 ≤ k := by omega
      have hk9 : k ≤ 9 := by omega
      have hkcast : ((⌈hue / 10⌉ : ℤ) : ℚ) = (k : ℚ) + 1 := by
        rw [hk]
        push_cast
        ring
      have hkq : (k : ℚ) < hue / 10 := by
        have h1 := Int.ceil_lt_add_one (hue / 10)
        rw [hkcast] at h1
        linarith
      have hlow : 10 * (k : ℚ) < hue := by
        have := (lt_div_iff₀ (show (0:ℚ) < 10 by norm_num)).mp hkq
        linarith
      have hkq2 : hue / 10 ≤ (k : ℚ) + 1 := by
        have h1 := Int.le_ceil (hue / 10)
        rw [hkcast] at h1
        exact h1
      have hhigh : hue ≤ 10 * (k : ℚ) + 10 := by
        have := (div_le_iff₀ (show (0:ℚ) < 10 by norm_num)).mp hkq2
        linarith
      set s : ℚ := hue - 10 * (k : ℚ) with hsdef
      have hs : 0 < s := by simp only [hsdef]; linarith
      have hs10 : s ≤ 10 := by simp only [hsdef]; linarith
      have key := to_colorlab_hue_eval k s hk0 hs hs10
      rw [show 10 * (k : ℚ) + s = hue by rw [hsdef]; ring] at key
      rw [key]
      refine ⟨hs, hs10, (16 - k) % 10 + 1, by omega, by omega, rfl⟩

/-- Witness for C5: munsellinterpol hue 5 (family R, shade 5) maps to
Colorlab `(5, 7)`. -/
theorem C5_to_colorlab_hue_remap_witness :
    Minterpol._to_colorlab_hue (10 * ((0 : ℤ) : ℚ) + 5) =
      (5, ([7, 6, 5, 4, 3, 2, 1, 10, 9, 8] : List ℚ).getD (0 : ℤ).toNat 0) :=
  C5_to_colorlab_hue_remap.1 0 (by norm_num) (by norm_num) 5 (by norm_num) (by norm_num)

/-- C7: the bridge also raises on outputs that do parse as nonempty JSON
lists: `[5]` parses as a list with one element, but the element is not a
3-element sequence, so the conversion raises rather than returning. -/
theorem C7_bridge_error_counterexample :
    Minterpol.rgb_to_munsell_specification (some (.arr [.num 5])) =
      .error (.typeError "cannot unpack non-sequence") ∧
    (Minterpol.Json.num 5 :: ([] : List Minterpol.Json)) ≠ [] := by
  exact ⟨rfl, by simp⟩

/-- C7 (amended): for every subprocess output, the bridge functions raise
if and only if the output does not parse as a JSON list with at least one
element whose first element is a 3-element numeric sequence; when it does,
both functions convert the first element to a Colorlab specification, and
the two bridge functions behave identically on the output. -/
theorem C7_bridge_error_iff_malformed :
    ∀ out? : Option Minterpol.Json,
      ((∃ e, Minterpol.rgb_to_munsell_specification out? = .error e) ↔
        ¬ ∃ (data : Minterpol.Json) (rest : List Minterpol.Json)
            (hvc : ℚ × ℚ × ℚ),
          out? = some (.arr (data :: rest)) ∧
          Minterpol._unpack_hvc data = .ok hvc) ∧
      Minterpol.xyY_to_munsell_specification out? =
        Minterpol.rgb_to_munsell_specification out? ∧
      (∀ (data : Minterpol.Json) (rest : List Minterpol.Json) (h v c : ℚ),
        out? = some (.arr (data :: rest)) →
        Minterpol._unpack_hvc data = .ok (h, v, c) →
        Minterpol.rgb_to_munsell_specification out? =
          .ok (Minterpol._to_colorlab_specification h v c)) := by
  intro out?
  refine ⟨?_, rfl, ?_⟩
  · constructor
    · rintro ⟨e, he⟩ ⟨data, rest, hvc, heq, hok⟩
      subst heq
      rw [Minterpol.rgb_to_munsell_specification, hok] at he
      cases he
    · intro hno
      match hout : out? with
      | none => exact ⟨_, rfl⟩
      | some (.null) => exact ⟨_, rfl⟩
      | some (.bool b) => exact ⟨_, rfl⟩
      | some (.num q) => exact ⟨_, rfl⟩
      | some (.str s) => exact ⟨_, rfl⟩
      | some (.obj fs) => exact ⟨_, rfl⟩
      | some (.arr []) => exact ⟨_, rfl⟩
      | some (.arr (data :: rest)) =>
        rw [Minterpol.rgb_to_munsell_specification]
        match hu : Minterpol._unpack_hvc data with
        | .ok hvc => exact absurd ⟨data, rest, hvc, rfl, hu⟩ hno
        | .error e => exact ⟨e, rfl⟩
  · intro data rest h v c heq hok
    subst heq
    rw [Minterpol.rgb_to_munsell_specification, hok]

/-- Witness for C7: a well-formed output `[[25, 5, 10]]` converts to the
Colorlab specification `(5, 5, 10, 5)` (hue 25 is 5Y). -/
theorem C7_bridge_error_iff_malformed_witness :
    Minterpol.rgb_to_munsell_specification
        (some (.arr [.arr [.num 25, .num 5, .num 10]])) =
      .ok (Minterpol._to_colorlab_specification 25 5 10) :=
  (C7_bridge_error_iff_malformed
      (some (.arr [.arr [.num 25, .num 5, .num 10]]))).2.2
    (.arr [.num 25, .num 5, .num 10]) [] 25 5 10 rfl rfl

theorem le_pyRoundTo_one {v : ℚ} {n : ℤ} (h : (n : ℚ) ≤ v) : (n : ℚ) ≤ pyRoundTo 1 v := by
  unfold pyRoundTo
  rw [zpow_one]
  have h10 : ((10 * n : ℤ) : ℚ) ≤ v * 10 := by push_cast; linarith
  have h2 : ((10 * n : ℤ) : ℚ) ≤ ((pyRound (v * 10) : ℤ) : ℚ) := by
    exact_mod_cast le_pyRound h10
  rw [le_div_iff₀ (by norm_num : (0:ℚ) < 10)]
  push_cast at h2
  linarith

theorem pyRoundTo_one_le {v : ℚ} {n : ℤ} (h : v ≤ (n : ℚ)) : pyRoundTo 1 v ≤ (n : ℚ) := by
  unfold pyRoundTo
  rw [zpow_one]
  have h10 : v * 10 ≤ ((10 * n : ℤ) : ℚ) := by push_cast; linarith
  have := pyRound_le h10
  rw [div_le_iff₀ (by norm_num : (0:ℚ) < 10)]
  have : (pyRound (v * 10) : ℚ) ≤ ((10 * n : ℤ) : ℚ) := by exact_mod_cast this
  push_cast at this
  linarith

/-- Case analysis of `normalized_hue` on a valid hue index: the result is
either the neutral pair or a pair `(integer index in 1..10, shade in
(0, 10])`, for every rounding mode. -/
theorem normalized_hue_ok (hi0 : Option ℚ) (hs0 : ℚ) (r : Munsellkit.Rounding)
    (h : hi0 = none ∨ ∃ k : ℤ, 1 ≤ k ∧ k ≤ 10 ∧ hi0 = some (k : ℚ)) :
    Munsellkit.normalized_hue hi0 (some hs0) r = .ok (none, none) ∨
    ∃ (k : ℤ) (q : ℚ), 1 ≤ k ∧ k ≤ 10 ∧ 0 < q ∧ q ≤ 10 ∧
      Munsellkit.normalized_hue hi0 (some hs0) r = .ok (some (k : ℚ), some q) := by
  rcases h with h | ⟨k, hk1, hk10, h⟩
  · subst h
    exact Or.inl rfl
  · subst h
    right
    simp only [Munsellkit.normalized_hue, pyTrunc_intCast]
    rw [if_neg (by omega : ¬ (k = 0))]
    rw [if_neg (by omega : ¬ (k < 1 ∨ 10 < k))]
    split_ifs with hw
    · exact ⟨k % 10 + 1, 10, by omega, by omega, by norm_num, by norm_num, rfl⟩
    · refine ⟨k, _, hk1, hk10, ?_, ?_, rfl⟩
      · exact lt_of_le_of_ne (le_max_left _ _) (Ne.symm hw)
      · exact max_le (by norm_num) (min_le_right _ _)

/-- C1: with the default rounding (1 decimal place), `normalized_color`
with a valid hue index (integer 1..10 or NaN) returns a specification in
the valid domains — `hue_shade` in [0, 10] or NaN, `value` in [0, 10],
`chroma` in [0, 50] or NaN, `hue_index` an integer in {1..10} or NaN — and
clamps out-of-range value and chroma into those domains. -/
theorem C1_normalized_color_default_domains :
    ∀ (hs v c : ℚ) (hi : Option ℚ),
      hi = none ∨ (∃ k : ℤ, 1 ≤ k ∧ k ≤ 10 ∧ hi = some (k : ℚ)) →
      ∃ out : Munsellkit.NSpec,
        Munsellkit.normalized_color hs v c hi (.dec 1) = .ok out ∧
        (out.hue_shade = none ∨ ∃ q : ℚ, out.hue_shade = some q ∧ 0 ≤ q ∧ q ≤ 10) ∧
        0 ≤ out.value ∧ out.value ≤ 10 ∧
        (out.chroma = none ∨ ∃ q : ℚ, out.chroma = some q ∧ 0 ≤ q ∧ q ≤ 50) ∧
        (out.hue_index = none ∨ ∃ k : ℤ, 1 ≤ k ∧ k ≤ 10 ∧ out.hue_index = some (k : ℚ)) ∧
        (10 < v → out.value = 10) ∧ (v < 0 → out.value = 0) ∧
        (50 < c → out.chroma = none ∨ out.chroma = some 50) ∧
        (c < 0 → out.chroma = none ∨ out.chroma = some 0) := by
  intro hs v c hi h
  have hv0 : 0 ≤ max 0 (min (pyRoundTo 1 v) 10) := le_max_left _ _
  have hv10 : max 0 (min (pyRoundTo 1 v) 10) ≤ 10 := max_le (by norm_num) (min_le_right _ _)
  have hc0 : 0 ≤ max 0 (min (pyRoundTo 1 c) 50) := le_max_left _ _
  have hc50 : max 0 (min (pyRoundTo 1 c) 50) ≤ 50 := max_le (by norm_num) (min_le_right _ _)
  have hvhigh : 10 < v → max 0 (min (pyRoundTo 1 v) 10) = 10 := by
    intro hgt
    have h1 : (10 : ℚ) ≤ pyRoundTo 1 v := by
      have := le_pyRoundTo_one (v := v) (n := 10) (by push_cast; linarith)
      push_cast at this
      linarith
    rw [min_eq_right h1, max_eq_right (by norm_num : (0:ℚ) ≤ 10)]
  have hvlow : v < 0 → max 0 (min (pyRoundTo 1 v) 10) = 0 := by
    intro hlt
    have h1 : pyRoundTo 1 v ≤ (0 : ℚ) := by
      have := pyRoundTo_one_le (v := v) (n := 0) (by push_cast; linarith)
      push_cast at this
      linarith
    rw [min_eq_left (le_trans h1 (by norm_num)), max_eq_left h1]
  have hchigh : 50 < c → max 0 (min (pyRoundTo 1 c) 50) = 50 := by
    intro hgt
    have h1 : (50 : ℚ) ≤ pyRoundTo 1 c := by
      have := le_pyRoundTo_one (v := c) (n := 50) (by push_cast; linarith)
      push_cast at this
      linarith
    rw [min_eq_right h1, max_eq_right (by norm_num : (0:ℚ) ≤ 50)]
  have hclow : c < 0 → max 0 (min (pyRoundTo 1 c) 50) = 0 := by
    intro hlt
    have h1 : pyRoundTo 1 c ≤ (0 : ℚ) := by
      have := pyRoundTo_one_le (v := c) (n := 0) (by push_cast; linarith)
      push_cast at this
      linarith
    rw [min_eq_left (le_trans h1 (by norm_num)), max_eq_left h1]
  rcases normalized_hue_ok hi hs (.dec 1) h with hh | ⟨k, q, hk1, hk10, hq0, hq10, hh⟩
  · simp only [Munsellkit.normalized_color, hh]
    split_ifs with hz
    · refine ⟨_, rfl, Or.inl rfl, by rw [hz], by rw [hz]; norm_num, Or.inl rfl, Or.inl rfl,
        ?_, fun _ => hz, fun _ => Or.inl rfl, fun _ => Or.inl rfl⟩
      intro hgt
      rw [hvhigh hgt] at hz
      norm_num at hz
    · refine ⟨_, rfl, Or.inl rfl, hv0, hv10, Or.inr ⟨_, rfl, hc0, hc50⟩, Or.inl rfl,
        fun hgt => hvhigh hgt, fun hlt => absurd (hvlow hlt) hz,
        fun hgt => Or.inr (by rw [hchigh hgt]), fun hlt => Or.inr (by rw [hclow hlt])⟩
  · simp only [Munsellkit.normalized_color, hh]
    split_ifs with hz
    · refine ⟨_, rfl, Or.inl rfl, by rw [hz], by rw [hz]; norm_num, Or.inl rfl, Or.inl rfl,
        ?_, fun _ => hz, fun _ => Or.inl rfl, fun _ => Or.inl rfl⟩
      intro hgt
      rw [hvhigh hgt] at hz
      norm_num at hz
    · refine ⟨_, rfl, Or.inr ⟨q, rfl, le_of_lt hq0, hq10⟩, hv0, hv10,
        Or.inr ⟨_, rfl, hc0, hc50⟩, Or.inr ⟨k, hk1, hk10, rfl⟩,
        fun hgt => hvhigh hgt, fun hlt => absurd (hvlow hlt) hz,
        fun hgt => Or.inr (by rw [hchigh hgt]), fun hlt => Or.inr (by rw [hclow hlt])⟩

/-- Witness for C1: the out-of-range input `(3, 12, 60, 2)` is normalized
into the valid domains. -/
theorem C1_normalized_color_default_domains_witness :
    ∃ out : Munsellkit.NSpec,
      Munsellkit.normalized_color 3 12 60 (some 2) (.dec 1) = .ok out ∧
      (out.hue_shade = none ∨ ∃ q : ℚ, out.hue_shade = some q ∧ 0 ≤ q ∧ q ≤ 10) ∧
      0 ≤ out.value ∧ out.value ≤ 10 ∧
      (out.chroma = none ∨ ∃ q : ℚ, out.chroma = some q ∧ 0 ≤ q ∧ q ≤ 50) ∧
      (out.hue_index = none ∨ ∃ k : ℤ, 1 ≤ k ∧ k ≤ 10 ∧ out.hue_index = some (k : ℚ)) ∧
      ((10 : ℚ) < 12 → out.value = 10) ∧ ((12 : ℚ) < 0 → out.value = 0) ∧
      ((50 : ℚ) < 60 → out.chroma = none ∨ out.chroma = some 50) ∧
      ((60 : ℚ) < 0 → out.chroma = none ∨ out.chroma = some 0) :=
  C1_normalized_color_default_domains 3 12 60 (some 2)
    (Or.inr ⟨2, by norm_num, by norm_num, by norm_num⟩)

/-- Case analysis of the probe loop of `adjust_value_up`: for `i` starting
at `i0` with `fuel` iterations left, the loop either raises or returns a
probe `Y + j·step` for some `j` in `[i0, i0 + fuel)`, with the returned
Munsell value in `[1, 10]`. -/
theorem adjust_loop_cases (mval : ℚ → ℚ) (x y Y step : ℚ) :
    ∀ (fuel i0 : ℕ),
      (∃ e, Deprecated.adjust_loop mval x y Y step i0 fuel = .error e) ∨
      (∃ (j : ℕ) (v : ℚ), i0 ≤ j ∧ j < i0 + fuel ∧
        Deprecated.adjust_loop mval x y Y step i0 fuel =
          .ok ((x, y, Y + (j : ℚ) * step), v) ∧
        v = mval (Y + (j : ℚ) * step) ∧ 1 ≤ v ∧ v ≤ 10) := by
  intro fuel
  induction fuel with
  | zero => intro i0; exact Or.inl ⟨_, rfl⟩
  | succ n ih =>
    intro i0
    simp only [Deprecated.adjust_loop]
    split_ifs with h10 h1
    · exact Or.inl ⟨_, rfl⟩
    · exact Or.inr ⟨i0, _, le_refl i0, by omega, rfl, rfl, h1, le_of_not_lt h10⟩
    · rcases ih (i0 + 1) with ⟨e, he⟩ | ⟨j, v, hij, hjf, heq, hv, h1v, h10v⟩
      · exact Or.inl ⟨e, he⟩
      · exact Or.inr ⟨j, v, by omega, by omega, heq, hv, h1v, h10v⟩

/-- C6 (amended): `adjust_value_up` is a bounded linear search: it either
raises, or returns its input `xyY` unchanged, or returns one of the at most
100 probes `Y + i·(0.2 − Y)/100`, `i = 1..100`; every returned Munsell
value lies in `[1, 10]` except in the `Y = 0` early return, which hands
back the unprobed input with its value (below 1 when the Y-to-value map
sends 0 below 1).  Stated for an arbitrary Y-to-Munsell-value map `mval`
standing for the external `new_Y_to_munsell_value`. -/
theorem C6_adjust_value_up_bounded_probing :
    ∀ (mval : ℚ → ℚ) (x y Y : ℚ),
      (∃ e, Deprecated.adjust_value_up mval (x, y, Y) = .error e) ∨
      (∃ p v, Deprecated.adjust_value_up mval (x, y, Y) = .ok (p, v) ∧
        ((1 ≤ v ∧ v ≤ 10) ∨ (Y = 0 ∧ p = (x, y, Y) ∧ v = mval Y ∧ v < 1)) ∧
        (p = (x, y, Y) ∨ ∃ i : ℕ, 1 ≤ i ∧ i ≤ 100 ∧
          p = (x, y, Y + (i : ℚ) * ((1/5 - Y) / 100)) ∧
          v = mval (Y + (i : ℚ) * ((1/5 - Y) / 100)))) := by
  intro mval x y Y
  simp only [Deprecated.adjust_value_up]
  split_ifs with h10 hor
  · exact Or.inl ⟨_, rfl⟩
  · refine Or.inr ⟨(x, y, Y), mval Y, rfl, ?_, Or.inl rfl⟩
    by_cases h1 : 1 ≤ mval Y
    · exact Or.inl ⟨h1, le_of_not_lt h10⟩
    · have hY0 : Y = 0 := by
        rcases hor with h | h
        · exact h
        · exact absurd h h1
      exact Or.inr ⟨hY0, rfl, rfl, lt_of_not_le h1⟩
  · rcases adjust_loop_cases mval x y Y ((1/5 - Y) / 100) 100 1 with
      ⟨e, he⟩ | ⟨j, v, hj1, hj101, heq, hv, h1v, h10v⟩
    · exact Or.inl ⟨e, he⟩
    · exact Or.inr ⟨_, v, heq, Or.inl ⟨h1v, h10v⟩, Or.inr ⟨j, hj1, by omega, rfl, hv⟩⟩

/-- C6: at luminosity `Y = 0` the adjuster returns the input with Munsell
value 0, which is outside the claimed domain `[1, 10]` (using the modelled
`new_Y_to_munsell_value`, for which black has value 0). -/
theorem C6_value_zero_counterexample :
    Deprecated.adjust_value_up Deprecated.new_Y_to_munsell_value (3/10, 3/10, 0) =
      .ok ((3/10, 3/10, 0), 0) ∧ ¬ (1 ≤ (0 : ℚ)) := by
  constructor
  · simp only [Deprecated.adjust_value_up, Deprecated.new_Y_to_munsell_value]
    norm_num
  · norm_num

theorem probe_some (v hi a b : ℝ) (acc : Option (ℝ × Lindbloom.SpecR)) (p : ℝ × ℝ) :
    ∃ q, Lindbloom._renotation_probe v hi a b acc p = some q := by
  unfold Lindbloom._renotation_probe
  cases acc with
  | none => exact ⟨_, rfl⟩
  | some q =>
    dsimp only
    split_ifs
    · exact ⟨_, rfl⟩
    · exact ⟨_, rfl⟩

theorem foldl_probe_ne_none (v hi a b : ℝ) :
    ∀ (l : List (ℝ × ℝ)) (acc : Option (ℝ × Lindbloom.SpecR)),
      acc ≠ none ∨ l ≠ [] →
      l.foldl (Lindbloom._renotation_probe v hi a b) acc ≠ none := by
  intro l
  induction l with
  | nil =>
    intro acc h
    rcases h with h | h
    · simpa using h
    · exact absurd rfl h
  | cons d t ih =>
    intro acc _
    simp only [List.foldl]
    rcases probe_some v hi a b acc d with ⟨q1, hq1⟩
    rw [hq1]
    exact ih (some q1) (Or.inl (by simp))

/-- C8 (amended): `uplab_to_renotation_specification` neither mutates nor
aliases its input on non-gray specifications (the result is a fresh array),
but on a neutral (gray) specification it writes the rounded renotation
value into the caller's array and returns that very array. -/
theorem C8_renotation_gray_mutation_amended :
    ∀ (spec : Lindbloom.SpecR) (lab : ℝ × ℝ × ℝ),
      (∀ h v c i, spec = .color h v c i →
        (Lindbloom.uplab_to_renotation_specification spec lab).specAfter = spec ∧
        (Lindbloom.uplab_to_renotation_specification spec lab).resultIsInput = false) ∧
      (∀ v, spec = .gray v →
        (Lindbloom.uplab_to_renotation_specification spec lab).resultIsInput = true ∧
        (Lindbloom.uplab_to_renotation_specification spec lab).specAfter =
          (Lindbloom.uplab_to_renotation_specification spec lab).result ∧
        (Lindbloom.uplab_to_renotation_specification spec lab).specAfter =
          .gray ((pyRound (if v < 1 then (1:ℝ) else if 9 < v ∧ v < 99/10 then 9 else v) : ℤ) : ℝ)) := by
  intro spec lab
  constructor
  · intro h v c i hspec
    subst hspec
    simp only [Lindbloom.uplab_to_renotation_specification]
    split
    · exact ⟨rfl, rfl⟩
    · next heq => exact absurd heq (foldl_probe_ne_none _ _ _ _ _ _ (Or.inr (by simp)))
  · intro v hspec
    subst hspec
    exact ⟨rfl, rfl, rfl⟩

/-- C8: on the concrete gray input `(NaN, 0.5, NaN, NaN)` the function
writes value 1 into the caller's array (so the input array is changed) and
returns that same array rather than a fresh one. -/
theorem C8_gray_input_mutated_counterexample :
    (Lindbloom.uplab_to_renotation_specification (.gray (1/2)) (0, 0, 0)).specAfter ≠
      Lindbloom.SpecR.gray (1/2) ∧
    (Lindbloom.uplab_to_renotation_specification (.gray (1/2)) (0, 0, 0)).resultIsInput =
      true := by
  have hr : pyRound ((1 : ℝ)) = 1 := by
    rw [show (1:ℝ) = ((1:ℤ):ℝ) by norm_num]
    exact pyRound_intCast 1
  constructor
  · simp only [Lindbloom.uplab_to_renotation_specification]
    rw [if_pos (by norm_num : (1:ℝ)/2 < 1), hr]
    intro hcon
    injection hcon with hcon
    norm_num at hcon
  · rfl

/-- Witness for C8: a concrete non-gray call leaves its input untouched and
returns a fresh array, and a concrete gray call aliases its input. -/
theorem C8_renotation_gray_mutation_amended_witness :
    (Lindbloom.uplab_to_renotation_specification (.color (5/2) 5 10 7) (0, 0, 0)).specAfter =
      Lindbloom.SpecR.color (5/2) 5 10 7 ∧
    (Lindbloom.uplab_to_renotation_specification (.color (5/2) 5 10 7) (0, 0, 0)).resultIsInput =
      false ∧
    (Lindbloom.uplab_to_renotation_specification (.gray 5) (0, 0, 0)).resultIsInput = true := by
  refine ⟨?_, ?_, ?_⟩
  · exact ((C8_renotation_gray_mutation_amended (.color (5/2) 5 10 7) (0, 0, 0)).1
      (5/2) 5 10 7 rfl).1
  · exact ((C8_renotation_gray_mutation_amended (.color (5/2) 5 10 7) (0, 0, 0)).1
      (5/2) 5 10 7 rfl).2
  · exact ((C8_renotation_gray_mutation_amended (.gray 5) (0, 0, 0)).2 5 rfl).1

/-- Splitting of `divmod(hue, 10)` with the shade-0 wrap applied, for hue
in (0, 100]: the resulting family index is in 0..9 and index·10 + shade
reconstructs the hue. -/
theorem hue_split (hue : ℝ) (h0 : 0 < hue) (h100 : hue ≤ 100) :
    ∃ (idx : ℤ) (sh : ℝ),
      (if hue - 10 * ((⌊hue / 10⌋ : ℤ) : ℝ) = 0 then ((10 : ℝ), ⌊hue / 10⌋ - 1)
        else (hue - 10 * ((⌊hue / 10⌋ : ℤ) : ℝ), ⌊hue / 10⌋)) = (sh, idx) ∧
      0 ≤ idx ∧ idx ≤ 9 ∧ (idx : ℝ) * 10 + sh = hue := by
  have hf0 : 0 ≤ ⌊hue / 10⌋ := Int.floor_nonneg.mpr (by positivity)
  have hf10 : ⌊hue / 10⌋ ≤ 10 := by
    have h1 : hue / 10 ≤ ((10 : ℤ) : ℝ) := by
      push_cast
      rw [div_le_iff₀ (by norm_num : (0:ℝ) < 10)]
      linarith
    have := Int.floor_le_floor h1
    rwa [Int.floor_intCast] at this
  have hlow : ((⌊hue / 10⌋ : ℤ) : ℝ) ≤ hue / 10 := Int.floor_le _
  by_cases hsh : hue - 10 * ((⌊hue / 10⌋ : ℤ) : ℝ) = 0
  · -- exact multiple of 10: shade 10, index one lower
    refine ⟨⌊hue / 10⌋ - 1, 10, by rw [if_pos hsh], ?_, by omega, ?_⟩
    · -- hue = 10·⌊hue/10⌋ > 0 forces ⌊hue/10⌋ ≥ 1
      have : (0 : ℝ) < 10 * ((⌊hue / 10⌋ : ℤ) : ℝ) := by linarith
      have : (0 : ℝ) < ((⌊hue / 10⌋ : ℤ) : ℝ) := by linarith
      have : (0 : ℤ) < ⌊hue / 10⌋ := by exact_mod_cast this
      omega
    · push_cast
      linarith
  · -- not a multiple of 10: shade is the remainder, and the floor is ≤ 9
    refine ⟨⌊hue / 10⌋, hue - 10 * ((⌊hue / 10⌋ : ℤ) : ℝ), by rw [if_neg hsh], hf0, ?_, by ring⟩
    rcases eq_or_lt_of_le hf10 with he | hlt
    · exfalso
      apply hsh
      have h1 : ((10 : ℤ) : ℝ) ≤ hue / 10 := by rw [← he]; exact hlow
      have h2 : (100 : ℝ) ≤ hue := by
        rw [le_div_iff₀ (by norm_num : (0:ℝ) < 10)] at h1
        push_cast at h1
        linarith
      have h3 : hue = 100 := le_antisymm h100 h2
      rw [he, h3]
      norm_num
    · omega

/-- Reconstruction of the Colorlab family index in
`munsell_specification_to_uplab` from the index stored by
`uplab_to_munsell_specification`. -/
theorem hue_index_reconstruction (idx : ℤ) (h0 : 0 ≤ idx) (h9 : idx ≤ 9) :
    (18 - pyTrunc ((((17 - idx) % 10 : ℤ) : ℝ) + 1)) % 10 = idx := by
  have hcast : (((17 - idx) % 10 : ℤ) : ℝ) + 1 = (((17 - idx) % 10 + 1 : ℤ) : ℝ) := by
    push_cast
    ring
  rw [hcast, pyTrunc_intCast]
  omega

/-- C9: on non-gray inputs, `munsell_specification_to_uplab` inverts
`uplab_to_munsell_specification` exactly (in exact real arithmetic): for
every UP LAB point with `l` in [0, 1], `a*`, `b*` in [−0.5, 0.5] and
computed chroma `50·√(a*² + b*²)` at least 0.01, the composition returns
the original point. -/
theorem C9_uplab_roundtrip :
    ∀ l a b : ℝ,
      0 ≤ l → l ≤ 1 → -(1/2) ≤ a → a ≤ 1/2 → -(1/2) ≤ b → b ≤ 1/2 →
      1/100 ≤ Lindbloom.CHROMA_FACTOR * Real.sqrt (a * a + b * b) →
      Lindbloom.munsell_specification_to_uplab
        (Lindbloom.uplab_to_munsell_specification (l, a, b)) = (l, a, b) := by
  intro l a b _ _ _ _ _ _ hcr
  have hCF : Lindbloom.CHROMA_FACTOR = (50 : ℝ) := rfl
  have hCFne : Lindbloom.CHROMA_FACTOR ≠ (0 : ℝ) := by rw [hCF]; norm_num
  have hVFne : Lindbloom.VALUE_FACTOR ≠ (0 : ℝ) := by
    simp only [Lindbloom.VALUE_FACTOR]
    norm_num
  have hr0 : 0 < Real.sqrt (a * a + b * b) := by
    rw [hCF] at hcr
    linarith
  have hrne : Real.sqrt (a * a + b * b) ≠ 0 := ne_of_gt hr0
  have hzne : ({ re := a, im := b } : ℂ) ≠ 0 := by
    intro hz
    rw [Complex.ext_iff] at hz
    obtain ⟨hza, hzb⟩ := hz
    simp only [Complex.zero_re, Complex.zero_im] at hza hzb
    rw [hza, hzb] at hr0
    norm_num [Real.sqrt_zero] at hr0
  have habs : Complex.abs { re := a, im := b } = Real.sqrt (a * a + b * b) := by
    rw [Complex.abs_apply, Complex.normSq_mk]
  have hθ1 : -Real.pi < Lindbloom.atan2 b a := by
    unfold Lindbloom.atan2
    exact Complex.neg_pi_lt_arg _
  have hθ2 : Lindbloom.atan2 b a ≤ Real.pi := by
    unfold Lindbloom.atan2
    exact Complex.arg_le_pi _
  have hcos : Real.cos (Lindbloom.atan2 b a) = a / Real.sqrt (a * a + b * b) := by
    unfold Lindbloom.atan2
    rw [Complex.cos_arg hzne, habs]
  have hsin : Real.sin (Lindbloom.atan2 b a) = b / Real.sqrt (a * a + b * b) := by
    unfold Lindbloom.atan2
    rw [Complex.sin_arg, habs]
  have hπ : (0 : ℝ) < Real.pi := Real.pi_pos
  have hπne : Real.pi ≠ 0 := ne_of_gt hπ
  have hscale : ∀ x y : ℝ, x < y → x * 180 / Real.pi < y * 180 / Real.pi := by
    intro x y hxy
    rw [div_lt_div_right hπ]
    nlinarith
  have hscale_le : ∀ x y : ℝ, x ≤ y → x * 180 / Real.pi ≤ y * 180 / Real.pi := by
    intro x y hxy
    rw [div_le_div_right hπ]
    nlinarith
  simp only [Lindbloom.uplab_to_munsell_specification]
  rw [if_neg (not_lt.mpr hcr)]
  set dg : ℝ := Lindbloom.atan2 b a * 180 / Real.pi with hdg
  set ha : ℝ := if dg < 0 then dg + 360 else dg with hha
  set hue0 : ℝ := ha * 100 / 360 with hhue0
  set hue : ℝ := if 100 < hue0 + 5/2 then hue0 + 5/2 - 100 else hue0 + 5/2 with hhue
  have hdg_lb : -180 < dg := by
    rw [hdg]
    have h1 := hscale (-Real.pi) (Lindbloom.atan2 b a) hθ1
    rw [show -Real.pi * 180 / Real.pi = -180 by rw [div_eq_iff hπne]; ring] at h1
    exact h1
  have hdg_ub : dg ≤ 180 := by
    rw [hdg]
    have h1 := hscale_le (Lindbloom.atan2 b a) Real.pi hθ2
    rw [show Real.pi * 180 / Real.pi = 180 by rw [div_eq_iff hπne]; ring] at h1
    exact h1
  have hha_lb : 0 ≤ ha := by
    rw [hha]
    split_ifs with h
    · linarith
    · linarith [not_lt.mp h]
  have hha_ub : ha < 360 := by
    rw [hha]
    split_ifs with h <;> linarith
  have hhue0_lb : 0 ≤ hue0 := by
    rw [hhue0]
    positivity
  have hhue0_ub : hue0 < 100 := by
    rw [hhue0, div_lt_iff₀ (by norm_num : (0:ℝ) < 360)]
    nlinarith
  have hhue_pos : 0 < hue := by
    rw [hhue]
    split_ifs with h <;> linarith
  have hhue_le : hue ≤ 100 := by
    rw [hhue]
    split_ifs with h <;> linarith
  obtain ⟨idx, sh, hp, hidx0, hidx9, hrecon⟩ := hue_split hue hhue_pos hhue_le
  rw [hp]
  simp only [Lindbloom.munsell_specification_to_uplab]
  rw [hue_index_reconstruction idx hidx0 hidx9]
  rw [hrecon]
  have hdewrap : (if hue - 5/2 < 0 then hue - 5/2 + 100 else hue - 5/2) = hue0 := by
    rw [hhue]
    split_ifs with h1 h2 h2
    · ring
    · exfalso
      apply h2
      linarith
    · exfalso
      linarith
    · ring
  have hangle :
      (if hue - 5/2 < 0 then hue - 5/2 + 100 else hue - 5/2) * 360 / 100 * Real.pi / 180 =
        Lindbloom.atan2 b a ∨
      (if hue - 5/2 < 0 then hue - 5/2 + 100 else hue - 5/2) * 360 / 100 * Real.pi / 180 =
        Lindbloom.atan2 b a + 2 * Real.pi := by
    rw [hdewrap]
    have h2 : hue0 * 360 / 100 * Real.pi / 180 = ha * Real.pi / 180 := by
      rw [hhue0]
      ring
    rw [h2, hha]
    split_ifs with h
    · right
      rw [hdg]
      field_simp
      ring
    · left
      rw [hdg]
      field_simp
  rw [Prod.mk.injEq, Prod.mk.injEq]
  refine ⟨mul_div_cancel_left₀ l hVFne, ?_, ?_⟩
  · rcases hangle with hA | hA <;> rw [hA]
    · rw [hcos, mul_div_cancel_left₀ _ hCFne, div_mul_cancel₀ a hrne]
    · rw [show Lindbloom.atan2 b a + 2 * Real.pi = Lindbloom.atan2 b a + 2 * Real.pi from rfl,
        Real.cos_add_two_pi, hcos, mul_div_cancel_left₀ _ hCFne, div_mul_cancel₀ a hrne]
  · rcases hangle with hA | hA <;> rw [hA]
    · rw [hsin, mul_div_cancel_left₀ _ hCFne, div_mul_cancel₀ b hrne]
    · rw [Real.sin_add_two_pi, hsin, mul_div_cancel_left₀ _ hCFne, div_mul_cancel₀ b hrne]

/-- Witness for C9: the concrete non-gray point `(1/2, 1/5, 0)` (chroma 10)
round-trips exactly. -/
theorem C9_uplab_roundtrip_witness :
    Lindbloom.munsell_specification_to_uplab
      (Lindbloom.uplab_to_munsell_specification (1/2, 1/5, 0)) = ((1:ℝ)/2, (1:ℝ)/5, (0:ℝ)) :=
  C9_uplab_roundtrip (1/2) (1/5) 0 (by norm_num) (by norm_num) (by norm_num)
    (by norm_num) (by norm_num) (by norm_num)
    (by
      rw [show (1:ℝ)/5 * (1/5) + 0 * 0 = (1/5)^2 by ring]
      rw [Real.sqrt_sq (by norm_num : (0:ℝ) ≤ 1/5)]
      rw [show Lindbloom.CHROMA_FACTOR = (50:ℝ) from rfl]
      norm_num)
